import Mathlib

/-!
Verification of the OCR batch-processing engine of AI-Paperless-Organizer
(backend/app/services/ocr_service.py and backend/app/routers/ocr.py).

Shallow embedding conventions:
* Python `str` values are Lean `String`s; where the source manipulates a
  string character-by-character or line-by-line we work on `String.data`
  (a `List Char`), which is definitionally the string's contents.
* Python `str.strip()` is `pyStrip` (drop whitespace on both ends),
  `str.lower()` is `pyLower` (ASCII case folding; all comparisons in the
  source involve ASCII marker strings), `s.split('\n')` is
  `List.splitOn '\n'` on the character list, `'\n'.join` is
  `List.intercalate ['\n']`.
* Python float arithmetic on small integers (`old_len * 0.5`,
  `1 - cleaned/raw`) is modelled exactly: the comparison
  `new_len < old_len * 0.5` is `2 * new_len < old_len`, ratios are `ℚ`.
* Network calls and file I/O (the paperless client, Ollama endpoints,
  persisted JSON files) are oracles passed in as explicit parameters;
  exceptions become `Option`/`Except` values.
-/

namespace OcrService

/-- Python `str.strip()` on a character list: remove leading and trailing
whitespace. -/
def pyStrip (l : List Char) : List Char :=
  ((l.dropWhile Char.isWhitespace).reverse.dropWhile Char.isWhitespace).reverse

/-- Python `str.lower()` (ASCII case folding suffices for the source's
marker comparisons). -/
def pyLower (l : List Char) : List Char :=
  l.map Char.toLower

/-- Python `p in s` substring test on character lists. -/
def subIn (p s : List Char) : Bool :=
  s.tails.any (fun t => p.isPrefixOf t)

/-!
## `OcrService._clean_repetitions` (ocr_service.py lines 398-455)

Phase 1 scans for an "instruction echo": ≥ 20 consecutive lines with
identical non-empty stripped content; on detection the line list is
truncated at the run's start.  Phase 2 collapses any remaining run of a
repeated non-empty stripped line to at most 6 kept occurrences.
-/

/-- Phase-1 loop of `_clean_repetitions`: returns `some runStart` when an
instruction echo (a run reaching 20 identical non-empty stripped lines) is
detected, mirroring the Python loop state
`(i, run_start, last_stripped, run_count)`. -/
def findEcho : List (List Char) → Nat → Nat → List Char → Nat → Option Nat
  | [], _, _, _, _ => none
  | line :: rest, i, runStart, lastStripped, runCount =>
    let stripped := pyStrip line
    if stripped ≠ [] ∧ stripped = lastStripped then
      if runCount + 1 ≥ 20 then some runStart
      else findEcho rest (i + 1) runStart lastStripped (runCount + 1)
    else
      findEcho rest (i + 1) i stripped (if stripped ≠ [] then 1 else 0)

/-- Phase-2 loop of `_clean_repetitions`: keep at most 6 consecutive lines
with the same non-empty stripped content, mirroring the Python loop state
`(repeat_count, last_line)`. -/
def collapse : List (List Char) → Nat → List Char → List (List Char)
  | [], _, _ => []
  | line :: rest, repeatCount, lastLine =>
    let stripped := pyStrip line
    if stripped = lastLine ∧ stripped ≠ [] then
      if repeatCount + 1 ≥ 6 then collapse rest (repeatCount + 1) stripped
      else line :: collapse rest (repeatCount + 1) stripped
    else
      line :: collapse rest 0 stripped

/-- State-explicit form of the phase-1 loop: identical to `findEcho` but
returning the final loop state `(run_start, last_stripped, run_count)`
when no echo is detected, which makes the loop compositional. -/
def echoScan : List (List Char) → Nat → Nat × List Char × Nat →
    Except (Nat × List Char × Nat) Nat
  | [], _, st => .error st
  | line :: rest, i, st =>
    let stripped := pyStrip line
    if stripped ≠ [] ∧ stripped = st.2.1 then
      if st.2.2 + 1 ≥ 20 then .ok st.1
      else echoScan rest (i + 1) ⟨st.1, st.2.1, st.2.2 + 1⟩
    else echoScan rest (i + 1) ⟨i, stripped, if stripped ≠ [] then 1 else 0⟩

/-- No two adjacent lines share the same non-empty stripped content
(relative to the stripped previous line `prev`): every iteration of both
repetition loops takes its else branch on such input. -/
def okChainB : List Char → List (List Char) → Bool
  | _, [] => true
  | prev, l :: ls =>
    (decide (pyStrip l = []) || decide (pyStrip l ≠ prev)) && okChainB (pyStrip l) ls

/-- Length of the leading run of lines whose stripped content is the
non-empty `t`. -/
def headRun (t : List Char) : List (List Char) → Nat
  | [] => 0
  | l :: ls => if pyStrip l = t ∧ t ≠ [] then headRun t ls + 1 else 0

/-- `OcrService._clean_repetitions(text)`. -/
def clean_repetitions (text : String) : String :=
  let lines := text.data.splitOn '\n'
  if lines.length < 5 then text
  else
    let lines2 :=
      match findEcho lines 0 0 [] 0 with
      | some runStart => lines.take runStart
      | none => lines
    if lines2.length < 10 then ⟨pyStrip (List.intercalate ['\n'] lines2)⟩
    else ⟨List.intercalate ['\n'] (collapse lines2 0 [])⟩

/-!
## `OcrService._strip_reasoning` (lines 315-321)

`re.sub(r'<think>.*?</think>', '', text, flags=re.DOTALL)`: repeatedly
remove the span from the leftmost `<think>` to the first `</think>` after
it, continuing the scan after the removed span.
-/

/-- Index of the first occurrence of `p` as a contiguous sublist of `s`. -/
def findSub (p : List Char) : List Char → Option Nat
  | [] => if p = [] then some 0 else none
  | c :: rest =>
    if p.isPrefixOf (c :: rest) then some 0
    else (findSub p rest).map (· + 1)

/-- One pass of the non-greedy `<think>...</think>` removal, with fuel
(the source regex engine always terminates; each removal consumes at
least 15 characters). -/
def stripThinkAux : Nat → List Char → List Char
  | 0, s => s
  | fuel + 1, s =>
    match findSub "<think>".data s with
    | none => s
    | some i =>
      match findSub "</think>".data (s.drop (i + 7)) with
      | none => s
      | some j => s.take i ++ stripThinkAux fuel ((s.drop (i + 7)).drop (j + 8))

/-- `OcrService._strip_reasoning(text)`. -/
def strip_reasoning (text : String) : String :=
  let cleaned := pyStrip (stripThinkAux text.data.length text.data)
  if cleaned ≠ [] then ⟨cleaned⟩ else ⟨pyStrip text.data⟩

/-!
## `OcrService._strip_ocr_commentary` (lines 323-346)
-/

/-- ASCII apostrophe, written via its code point. -/
def apos : Char := Char.ofNat 39

/-- The `commentary_starts` tuple (lines 331-336). -/
def commentary_starts : List (List Char) :=
  [ "got it".data, "let me ".data, "let".data ++ [apos] ++ "s ".data,
    "first,".data, "first i ".data, "i need to ".data, "starting from".data,
    "wait,".data, "let".data ++ [apos] ++ "s check".data,
    "okay,".data, "so,".data, "now,".data,
    "i".data ++ [apos] ++ "ll ".data, "i will ".data,
    "transcribe this".data, "go through each".data,
    "making sure not to miss".data,
    "die bild zeigt".data, "im bild steht".data, "zuerst muss ich".data ]

/-- `any(stripped.startswith(p) or p in stripped[:50] for p in commentary_starts)`. -/
def markerMatch (stripped : List Char) : Bool :=
  commentary_starts.any (fun p => p.isPrefixOf stripped || subIn p (stripped.take 50))

/-- The scanning loop of `_strip_ocr_commentary`: returns the stripped
prefix `"\n".join(lines[:i]).strip()` of the first commentary line whose
preceding material exceeds 80 characters; other commentary lines, empty
lines and ordinary lines are skipped. -/
def findCut (all : List (List Char)) : List (List Char) → Nat → Option (List Char)
  | [], _ => none
  | line :: rest, i =>
    let stripped := pyLower (pyStrip line)
    if stripped = [] then findCut all rest (i + 1)
    else if markerMatch stripped then
      let before := pyStrip (List.intercalate ['\n'] (all.take i))
      if before.length > 80 then some before
      else findCut all rest (i + 1)
    else findCut all rest (i + 1)

/-- `OcrService._strip_ocr_commentary(text)`. -/
def strip_ocr_commentary (text : String) : String :=
  if text.data = [] ∨ text.length < 100 then text
  else
    let lines := text.data.splitOn '\n'
    match findCut lines lines 0 with
    | some before => ⟨before⟩
    | none => text

/-!
## Response post-processing in `OcrService._run_ollama_ocr` (lines 546-586)

After a 200 response, the message content is stripped of reasoning and
commentary (with a fallback to the thinking channel when the content
empties), repetition-cleaned, and wrapped with its raw length and loop
ratio; an empty final text yields `None`.
-/

/-- The `_cleaned`/`_raw_len`/`_loop_ratio` record returned by
`_run_ollama_ocr` on success. -/
structure OcrOutcome where
  cleaned : String
  rawLen : Nat
  loop_ratio : ℚ
  deriving Repr, DecidableEq

/-- Lines 558-586: raw length, repetition cleanup, loop ratio and the
final empty check, starting from the stripped text (`text_content` after
the reasoning/commentary strips and the thinking fallback). -/
def outcome_of (s : String) : Option OcrOutcome :=
  let rawLen := s.length
  let t3 := if s.data ≠ [] then clean_repetitions s else s
  let cleanedLen := t3.length
  let ratio : ℚ := if rawLen > 0 then 1 - (cleanedLen : ℚ) / (rawLen : ℚ) else 0
  if t3.data = [] then none
  else some { cleaned := t3, rawLen := rawLen, loop_ratio := ratio }

/-- Sanitization pipeline of `_run_ollama_ocr`, from the message content
and thinking channel of a 200 response to the returned record (`none`
models the `return None` on empty text). -/
def process_response (content thinking : String) : Option OcrOutcome :=
  let t1 := strip_ocr_commentary (strip_reasoning ⟨pyStrip content.data⟩)
  let t2 := if t1.data = [] ∧ thinking.data ≠ [] then strip_reasoning thinking else t1
  outcome_of t2

/-!
## Endpoint failover in `OcrService._run_ollama_ocr` (lines 502-594)
and `OcrService.rotate_url` (lines 116-120)

The request loop runs `attempts = len(self.ollama_urls)` times; a raised
error (transport failure or non-2xx status) rotates the URL cursor and
retries; a 200 response returns immediately (with `None` for empty text,
without rotating); an exhausted loop raises the aggregate error.
-/

/-- What one endpoint does with the request: raise (transport error or
non-2xx), answer 200 with no usable text, or answer 200 with an outcome. -/
inductive EndpointResult where
  | fail
  | empty
  | success (o : OcrOutcome)
  deriving Repr, DecidableEq

/-- `OcrService.rotate_url` on the cursor (advances, wrapping, only when
more than one URL is configured). -/
def rotate_url (n idx : Nat) : Nat :=
  if n > 1 then (idx + 1) % n else idx

/-- The `for _ in range(attempts)` loop of `_run_ollama_ocr`, with the
remaining iteration count as fuel: returns (result, attempts made, final
cursor); result `none` models the aggregate `RuntimeError`, `some none`
the `return None` on empty text. -/
def execGo (outcomes : List EndpointResult) :
    Nat → Nat → Option (Option OcrOutcome) × Nat × Nat
  | idx, 0 => (none, 0, idx)
  | idx, fuel + 1 =>
    match outcomes.getD idx .fail with
    | .success o => (some (some o), 1, idx)
    | .empty => (some none, 1, idx)
    | .fail =>
      let idx2 := rotate_url outcomes.length idx
      let r := execGo outcomes idx2 fuel
      (r.1, r.2.1 + 1, r.2.2)

/-- `_run_ollama_ocr` request submission for a configured endpoint list
whose behaviours are `outcomes`, starting at cursor `startIdx`. -/
def run_ollama_ocr (outcomes : List EndpointResult) (startIdx : Nat) :
    Option (Option OcrOutcome) × Nat × Nat :=
  execGo outcomes startIdx outcomes.length

/-!
## `OcrService._ocr_single_image` (lines 457-500)

One standard-prompt attempt; if its loop ratio exceeds 0.6, one retry
with the anti-table prompt, keeping the longer cleaned text.
-/

/-- Which prompt a `_run_ollama_ocr` invocation used. -/
inductive PromptKind where
  | std
  | antiTable
  deriving Repr, DecidableEq

/-- `_ocr_single_image`, with the endpoint interaction abstracted as a
map from prompt kind to the (non-raising) `_run_ollama_ocr` result:
returns the page text (`none` models `return None`) and the list of
attempts issued, in order. -/
def ocr_single_image (run : PromptKind → Option OcrOutcome) :
    Option String × List PromptKind :=
  match run .std with
  | none => (none, [.std])
  | some o =>
    if o.loop_ratio > (3 : ℚ) / 5 then
      match run .antiTable with
      | none => (some o.cleaned, [.std, .antiTable])
      | some r =>
        if r.cleaned.length > o.cleaned.length then
          (some r.cleaned, [.std, .antiTable])
        else (some o.cleaned, [.std, .antiTable])
    else (some o.cleaned, [.std])

/-!
## `OcrService._prepare_image_for_ollama` (lines 269-298)

Dimension arithmetic only: downscale to the target preserving aspect
ratio, then round each dimension down to a multiple of 28 with a floor
of 28.  `int(w * ratio)` on non-negative values is exact floor division.
-/

/-- The output (width, height) of `_prepare_image_for_ollama` for an
input image of size `w × h` and resolved target size `targetSize`. -/
def prepare_dims (w h targetSize : Nat) : Nat × Nat :=
  let m := max w h
  let p := if m > targetSize then (w * targetSize / m, h * targetSize / m) else (w, h)
  (max 28 (p.1 / 28 * 28), max 28 (p.2 / 28 * 28))

/-!
## `OcrService.ocr_document` page loop (lines 754-799)

Pages are OCRed strictly in order; a raised page error or an
empty/whitespace page result fails the whole document; otherwise the
page texts are joined with `"\n\n"`.
-/

/-- The per-page loop: each entry is the `_ocr_single_image` result for
that page (`none` models a raised error or the `None` return). -/
def join_pages : List (Option String) → Except String (List String)
  | [] => .ok []
  | none :: _ => .error "Multi-page consistency check failed"
  | some t :: rest =>
    if t.data = [] ∨ pyStrip t.data = [] then
      .error "Empty result from OCR model"
    else (join_pages rest).map (fun l => t :: l)

/-- `ocr_document` new-content computation over the page results (the
vision path; the empty-pages guard is line 754). -/
def ocr_document_content (pages : List (Option String)) : Except String String :=
  if pages = [] then .error "Keine Seiten aus dem Dokument extrahiert"
  else (join_pages pages).map (fun parts => String.intercalate "\n\n" parts)

/-!
## The quality gate in `OcrService.batch_ocr` (lines 992-1063)
-/

/-- Python banker's rounding (`round`) of an exact rational. -/
def pyRound (q : ℚ) : ℤ :=
  let f := ⌊q⌋
  let r := q - f
  if r < 1 / 2 then f
  else if 1 / 2 < r then f + 1
  else if f % 2 = 0 then f else f + 1

/-- A review-queue entry as appended by `batch_ocr` (timestamp omitted). -/
structure ReviewItem where
  document_id : Nat
  title : String
  old_content : String
  new_content : String
  old_length : Nat
  new_length : Nat
  ratioPct : ℤ
  retried : Bool

/-- Outcome of the quality-gate block for one document: the content that
survives, how many full re-OCR retries were issued, the review-queue
entry appended (if any), and whether the result was written back. -/
structure GateOutcome where
  finalContent : String
  retries : Nat
  review : Option ReviewItem
  applied : Bool

/-- The retry-preference logic of the quality gate (lines 1009-1030):
the retry content is kept when it is non-empty and at least as long as
the first attempt. -/
def retry_kept (newContent : String) (retryOutcome : Option String) : String :=
  match retryOutcome with
  | none => newContent
  | some rc =>
    if rc.data ≠ [] ∧ newContent.length < rc.length then rc
    else if rc.data ≠ [] then
      (if newContent.length ≤ rc.length then rc else newContent)
    else newContent

/-- The quality-gate logic of `batch_ocr` for one successfully OCRed
document: `retryOutcome` is the `new_content` of the single
`ocr_document` retry (`none` models the retry raising).  The comparison
`new_len < old_len * QUALITY_THRESHOLD` with `QUALITY_THRESHOLD = 0.5`
is exactly `2 * new_len < old_len`. -/
def quality_gate (docId : Nat) (title oldContent newContent : String)
    (retryOutcome : Option String) : GateOutcome :=
  if newContent.data = [] then
    { finalContent := newContent, retries := 0, review := none, applied := false }
  else
    let oldLen := oldContent.length
    let newLen := newContent.length
    if 100 < oldLen ∧ 2 * newLen < oldLen then
      let kept := retry_kept newContent retryOutcome
      let newLen2 := kept.length
      if 100 < oldLen ∧ 2 * newLen2 < oldLen then
        { finalContent := kept, retries := 1,
          review := some
            { document_id := docId, title := title,
              old_content := oldContent, new_content := kept,
              old_length := oldLen, new_length := newLen2,
              ratioPct := if 0 < oldLen then pyRound ((newLen2 : ℚ) * 100 / (oldLen : ℚ)) else 0,
              retried := true },
          applied := false }
      else { finalContent := kept, retries := 1, review := none, applied := true }
    else { finalContent := newContent, retries := 0, review := none, applied := true }

/-!
## Document selection in `OcrService.batch_ocr` (lines 898-953) and
`get_ocr_ignored_ids` (lines 83-85)
-/

/-- A paperless document as used by the selection code. -/
structure PDoc where
  id : Nat
  tags : List Nat
  deriving Repr, DecidableEq

/-- An OCR ignore-list entry (timestamp omitted). -/
structure IgnoreEntry where
  document_id : Nat
  title : String
  reason : String

/-- `get_ocr_ignored_ids()`: the set of ignored document ids. -/
def get_ocr_ignored_ids (ignoreList : List IgnoreEntry) : List Nat :=
  ignoreList.map (fun e => e.document_id)

/-- Batch selection mode. -/
inductive BatchMode where
  | all
  | tagged
  | manual

/-- Candidate selection of `batch_ocr`: per-mode tag filtering followed
by ignore-list removal.  `allDocs` is the full listing, `taggedDocs` the
runocr-tagged listing, `manualDocs` the successfully fetched documents
of the explicit id list. -/
def select_documents (mode : BatchMode) (allDocs taggedDocs manualDocs : List PDoc)
    (ocrfinishTagId : Nat) (ignoreList : List IgnoreEntry) : List PDoc :=
  let documents :=
    match mode with
    | .all => allDocs.filter (fun d => ocrfinishTagId ∉ d.tags)
    | .tagged => taggedDocs.filter (fun d => ocrfinishTagId ∉ d.tags)
    | .manual => manualDocs.filter (fun d => ocrfinishTagId ∉ d.tags)
  let ignoredIds := get_ocr_ignored_ids ignoreList
  if ignoredIds ≠ [] then documents.filter (fun d => d.id ∉ ignoredIds)
  else documents

/-!
## Applying a result: `OcrService.apply_ocr_result` (lines 816-863) and
the apply block of `batch_ocr` (lines 1065-1107)

Both send the content PATCH first (with only the content field), then
issue the tag bulk edit with one retry after a 2-second backoff, and
record a statistics entry whose success flag is the tag-mutation
outcome.  The content is never rolled back.
-/

/-- Externally visible actions of the apply sequence, in order. -/
inductive ApplyEvent where
  | patchContent (content : String)
  | bulkTag
  | sleep (seconds : Nat)
  | stats (success : Bool)
  deriving Repr, DecidableEq

/-- The shared bulk-edit retry loop (`for attempt in range(2)`):
`bulkOk n` tells whether attempt `n` succeeds. -/
def bulk_tag_attempts (bulkOk : Nat → Bool) : List ApplyEvent × Bool :=
  if bulkOk 0 then ([ApplyEvent.bulkTag], true)
  else if bulkOk 1 then
    ([ApplyEvent.bulkTag, ApplyEvent.sleep 2, ApplyEvent.bulkTag], true)
  else ([ApplyEvent.bulkTag, ApplyEvent.sleep 2, ApplyEvent.bulkTag], false)

/-- `apply_ocr_result(document_id, new_content, set_finish_tag)`:
the event trace and the returned success flag.  `tagId` is the id of the
resolved ocrfinish tag (`none` models a missing id). -/
def apply_ocr_result (newContent : String) (set_finish_tag : Bool)
    (tagId : Option Nat) (bulkOk : Nat → Bool) : List ApplyEvent × Bool :=
  let tagPart :=
    if set_finish_tag then
      match tagId with
      | some _ => bulk_tag_attempts bulkOk
      | none => ([], true)
    else ([], true)
  (ApplyEvent.patchContent newContent :: tagPart.1 ++ [ApplyEvent.stats tagPart.2],
   tagPart.2)

/-- The in-loop apply block of `batch_ocr` (content PATCH, tag bulk edit
with retry, statistics entry), for resolved tag-id lists. -/
def batch_apply (newContent : String) (addTags removeTags : List Nat)
    (bulkOk : Nat → Bool) : List ApplyEvent × Bool :=
  let tagPart :=
    if addTags ≠ [] ∨ removeTags ≠ [] then bulk_tag_attempts bulkOk
    else ([], true)
  (ApplyEvent.patchContent newContent :: tagPart.1 ++ [ApplyEvent.stats tagPart.2],
   tagPart.2)

/-!
## `apply_review_item` (routers/ocr.py lines 431-450)

The item is looked up in the persisted queue; `apply_ocr_result` runs
inside a try block; only on its success is the queue rewritten without
the item.  A raised error leaves the persisted queue untouched.
-/

/-- How the inner `apply_ocr_result` call ends: raising (with or without
the content PATCH having gone through first) or returning with the tag
success flag.  The content PATCH is the first statement of
`apply_ocr_result`, so a return implies the content was written. -/
inductive DocApplyOutcome where
  | raised (contentWritten : Bool)
  | ok (tagSuccess : Bool)

/-- HTTP-level result of the `POST /review/apply/:id` handler. -/
inductive ApplyReviewResult where
  | applied
  | notFound
  | failed
  deriving Repr, DecidableEq

/-- `apply_review_item(document_id)`: returns the handler result and the
persisted review queue after the call. -/
def apply_review_item (queue : List ReviewItem) (docId : Nat)
    (outcome : DocApplyOutcome) : ApplyReviewResult × List ReviewItem :=
  match queue.find? (fun q => q.document_id == docId) with
  | none => (.notFound, queue)
  | some _ =>
    match outcome with
    | .raised _ => (.failed, queue)
    | .ok _ => (.applied, queue.filter (fun q => q.document_id ≠ docId))

/-- The scanning loop of `_strip_ocr_commentary` truncates at line `i`
exactly when line `i` strips to a non-empty lowercase form matching a
commentary marker and the joined, stripped material before it exceeds
80 characters. -/
def cutsAt (all : List (List Char)) (i : Nat) : Prop :=
  ∃ line, all[i]? = some line ∧
    pyLower (pyStrip line) ≠ [] ∧
    markerMatch (pyLower (pyStrip line)) = true ∧
    80 < (pyStrip (List.intercalate ['\n'] (all.take i))).length

/-- A 1000-character prior content string and friends for the quality
gate scenarios. -/
def repStr (n : Nat) : String := ⟨List.replicate n 'a'⟩

/-- A concrete run map for the C5 witness: the standard attempt keeps 2
of 10 raw characters (loop ratio 0.7), the anti-table retry yields 4
characters. -/
def w5run : PromptKind → Option OcrOutcome := fun k =>
  match k with
  | PromptKind.std => some ⟨"ab", 10, 7 / 10⟩
  | PromptKind.antiTable => some ⟨"abcd", 4, 0⟩

/-!
# Theorems
-/

/-- Helper: the floor-to-28-with-minimum step keeps a value positive,
divisible by 28 and within a target of at least 28. -/
theorem floor28_spec (x t : Nat) (hx : x ≤ t) (ht : 28 ≤ t) :
    0 < max 28 (x / 28 * 28) ∧ 28 ∣ max 28 (x / 28 * 28) ∧ max 28 (x / 28 * 28) ≤ t := by
  refine ⟨by omega, ?_, ?_⟩
  · rcases max_choice 28 (x / 28 * 28) with h | h <;> rw [h] <;>
      first
      | exact dvd_refl 28
      | exact dvd_mul_left 28 (x / 28)
  · exact max_le ht (le_trans (Nat.div_mul_le_self x 28) hx)

/-- Helper: the scaled dimension never exceeds the target. -/
theorem scaled_le_target (w m t : Nat) (hw : w ≤ m) (hm : 0 < m) :
    w * t / m ≤ t := by
  calc w * t / m ≤ m * t / m := Nat.div_le_div_right (Nat.mul_le_mul_right t hw)
    _ = t := Nat.mul_div_cancel_left t hm

/-- C6 (amended): for every input image and every requested target of at
least 28, the prepared width and height are positive multiples of 28 and
each is at most the target.  (For targets below 28 the floor of 28 can
exceed the target, which is the counterexample.) -/
theorem claim_C6_prepared_dims (w h targetSize : Nat) (ht : 28 ≤ targetSize) :
    0 < (prepare_dims w h targetSize).1 ∧ 0 < (prepare_dims w h targetSize).2 ∧
    28 ∣ (prepare_dims w h targetSize).1 ∧ 28 ∣ (prepare_dims w h targetSize).2 ∧
    (prepare_dims w h targetSize).1 ≤ targetSize ∧
    (prepare_dims w h targetSize).2 ≤ targetSize := by
  unfold prepare_dims
  by_cases hm : max w h > targetSize
  · simp only [hm, if_pos]
    have hmpos : 0 < max w h := by omega
    have h1 := floor28_spec (w * targetSize / max w h) targetSize
      (scaled_le_target w (max w h) targetSize (le_max_left w h) hmpos) ht
    have h2 := floor28_spec (h * targetSize / max w h) targetSize
      (scaled_le_target h (max w h) targetSize (le_max_right w h) hmpos) ht
    exact ⟨h1.1, h2.1, h1.2.1, h2.2.1, h1.2.2, h2.2.2⟩
  · simp only [hm, if_neg, not_false_eq_true]
    have hw : w ≤ targetSize := le_trans (le_max_left w h) (by omega)
    have hh : h ≤ targetSize := le_trans (le_max_right w h) (by omega)
    have h1 := floor28_spec w targetSize hw ht
    have h2 := floor28_spec h targetSize hh ht
    exact ⟨h1.1, h2.1, h1.2.1, h2.2.1, h1.2.2, h2.2.2⟩

/-- C6 witness: a 3000 × 4000 image at the default target 1344. -/
theorem claim_C6_prepared_dims_witness :
    0 < (prepare_dims 3000 4000 1344).1 ∧ 0 < (prepare_dims 3000 4000 1344).2 ∧
    28 ∣ (prepare_dims 3000 4000 1344).1 ∧ 28 ∣ (prepare_dims 3000 4000 1344).2 ∧
    (prepare_dims 3000 4000 1344).1 ≤ 1344 ∧
    (prepare_dims 3000 4000 1344).2 ≤ 1344 :=
  claim_C6_prepared_dims 3000 4000 1344 (by norm_num)

/-- C6 counterexample: a 100 × 50 image with requested target 27 is
prepared as 28 × 28, exceeding the target, so the claim is false for
targets below 28. -/
theorem claim_C6_counterexample :
    prepare_dims 100 50 27 = (28, 28) ∧ ¬ (28 ≤ 27) := by
  constructor
  · rfl
  · omega

/-- C8: in every batch-selection mode, a document whose id is on the
ignore list is never among the selected documents. -/
theorem claim_C8_ignored_never_selected
    (mode : BatchMode) (allDocs taggedDocs manualDocs : List PDoc)
    (ocrfinishTagId : Nat) (ignoreList : List IgnoreEntry) (d : PDoc)
    (hd : d ∈ select_documents mode allDocs taggedDocs manualDocs ocrfinishTagId ignoreList) :
    d.id ∉ get_ocr_ignored_ids ignoreList := by
  unfold select_documents at hd
  by_cases hig : get_ocr_ignored_ids ignoreList ≠ []
  · rw [if_pos hig] at hd
    exact of_decide_eq_true (List.mem_filter.mp hd).2
  · push_neg at hig
    rw [hig]
    exact List.not_mem_nil _

/-- C8 witness: document 1 is selected in `all` mode while document 3 is
ignored. -/
theorem claim_C8_ignored_never_selected_witness :
    (⟨1, []⟩ : PDoc) ∈ select_documents BatchMode.all [⟨1, []⟩, ⟨3, []⟩] [] [] 2
      [⟨3, "t", "r"⟩] ∧
    (1 : Nat) ∉ get_ocr_ignored_ids [⟨3, "t", "r"⟩] :=
  ⟨by decide, claim_C8_ignored_never_selected BatchMode.all [⟨1, []⟩, ⟨3, []⟩] [] [] 2
    [⟨3, "t", "r"⟩] ⟨1, []⟩ (by decide)⟩

/-- C9: applying an OCR result sends the content PATCH first and alone;
a failed tag bulk edit is retried exactly once after a backoff; if the
retry also fails the content PATCH is not rolled back (the trace holds
exactly one content write) and the statistics entry records
success = false. -/
theorem claim_C9_tag_mutation (content : String) (tid : Nat) (bulkOk : Nat → Bool) :
    ((apply_ocr_result content true (some tid) bulkOk).1.head? =
      some (ApplyEvent.patchContent content)) ∧
    (bulkOk 0 = false → bulkOk 1 = false →
      (apply_ocr_result content true (some tid) bulkOk).1 =
        [ApplyEvent.patchContent content, ApplyEvent.bulkTag, ApplyEvent.sleep 2,
         ApplyEvent.bulkTag, ApplyEvent.stats false] ∧
      (apply_ocr_result content true (some tid) bulkOk).2 = false) ∧
    (bulkOk 0 = false → bulkOk 1 = true →
      (apply_ocr_result content true (some tid) bulkOk).1 =
        [ApplyEvent.patchContent content, ApplyEvent.bulkTag, ApplyEvent.sleep 2,
         ApplyEvent.bulkTag, ApplyEvent.stats true] ∧
      (apply_ocr_result content true (some tid) bulkOk).2 = true) ∧
    (∀ c, ApplyEvent.patchContent c ∈ (apply_ocr_result content true (some tid) bulkOk).1 →
      c = content) ∧
    (bulkOk 0 = false → bulkOk 1 = false →
      (batch_apply content [tid] [] bulkOk).1 =
        [ApplyEvent.patchContent content, ApplyEvent.bulkTag, ApplyEvent.sleep 2,
         ApplyEvent.bulkTag, ApplyEvent.stats false] ∧
      (batch_apply content [tid] [] bulkOk).2 = false) := by
  cases h0 : bulkOk 0 <;> cases h1 : bulkOk 1 <;>
    simp [apply_ocr_result, batch_apply, bulk_tag_attempts, h0, h1] <;>
    intro c hc <;> simp_all

/-- C9 witness: both bulk-edit attempts fail. -/
theorem claim_C9_tag_mutation_witness :
    (apply_ocr_result "text" true (some 5) (fun _ => false)).1 =
      [ApplyEvent.patchContent "text", ApplyEvent.bulkTag, ApplyEvent.sleep 2,
       ApplyEvent.bulkTag, ApplyEvent.stats false] ∧
    (apply_ocr_result "text" true (some 5) (fun _ => false)).2 = false :=
  (claim_C9_tag_mutation "text" 5 (fun _ => false)).2.1 rfl rfl

/-- C10: the review-queue apply removes the item from the persisted
queue only when the inner apply returns (which implies the content write
went through first); when the apply raises, the persisted queue is
unchanged and the item is still present. -/
theorem claim_C10_review_apply_atomic (queue : List ReviewItem) (docId : Nat)
    (outcome : DocApplyOutcome) :
    (∀ w, outcome = DocApplyOutcome.raised w →
      (apply_review_item queue docId outcome).2 = queue) ∧
    ((apply_review_item queue docId outcome).2 ≠ queue →
      ∃ t, outcome = DocApplyOutcome.ok t) ∧
    (∀ t, outcome = DocApplyOutcome.ok t → (∃ q ∈ queue, q.document_id = docId) →
      (apply_review_item queue docId outcome).2 =
        queue.filter (fun q => q.document_id ≠ docId) ∧
      (apply_review_item queue docId outcome).1 = ApplyReviewResult.applied) ∧
    (∀ w, outcome = DocApplyOutcome.raised w → (∃ q ∈ queue, q.document_id = docId) →
      ∃ q ∈ (apply_review_item queue docId outcome).2, q.document_id = docId) := by
  have hfind : ∀ (h : ∃ q ∈ queue, q.document_id = docId),
      ∃ item, queue.find? (fun q => q.document_id == docId) = some item := by
    intro h
    have : (queue.find? (fun q => q.document_id == docId)).isSome := by
      rw [List.find?_isSome]
      obtain ⟨q, hq, hid⟩ := h
      exact ⟨q, hq, by simp [hid]⟩
    exact Option.isSome_iff_exists.mp this
  refine ⟨?_, ?_, ?_, ?_⟩
  · intro w hw
    unfold apply_review_item
    cases hf : queue.find? (fun q => q.document_id == docId) <;> simp [hw]
  · intro hne
    cases outcome with
    | raised w =>
      exfalso
      apply hne
      unfold apply_review_item
      cases hf : queue.find? (fun q => q.document_id == docId) <;> simp
    | ok t => exact ⟨t, rfl⟩
  · intro t ht hmem
    obtain ⟨item, hf⟩ := hfind hmem
    unfold apply_review_item
    rw [hf, ht]
    exact ⟨rfl, rfl⟩
  · intro w hw hmem
    obtain ⟨item, hf⟩ := hfind hmem
    unfold apply_review_item
    rw [hf, hw]
    exact hmem

/-- C10 witness: an apply that raises after the content write leaves the
one-item queue untouched. -/
theorem claim_C10_review_apply_atomic_witness :
    (apply_review_item [⟨7, "t", "o", "n", 3, 1, 33, true⟩] 7
      (DocApplyOutcome.raised true)).2 = [⟨7, "t", "o", "n", 3, 1, 33, true⟩] :=
  (claim_C10_review_apply_atomic [⟨7, "t", "o", "n", 3, 1, 33, true⟩] 7
    (DocApplyOutcome.raised true)).1 true rfl

/-- Helper: indexing an all-fail endpoint list (the default is also
`fail`, so no bound is needed). -/
theorem getD_fail (l : List EndpointResult) (hall : ∀ r ∈ l, r = EndpointResult.fail) :
    ∀ idx, l.getD idx EndpointResult.fail = EndpointResult.fail := by
  intro idx
  induction l generalizing idx with
  | nil => simp [List.getD]
  | cons a t ih =>
    cases idx with
    | zero => exact hall a (List.mem_cons_self a t)
    | succ k => exact ih (fun r hr => hall r (List.mem_cons_of_mem a hr)) k

/-- Helper: for an in-range cursor, `rotate_url` is plain wrap-around
increment. -/
theorem rotate_url_eq (n idx : Nat) (h : idx < n) :
    rotate_url n idx = (idx + 1) % n := by
  unfold rotate_url
  by_cases h1 : n > 1
  · rw [if_pos h1]
  · rw [if_neg h1]
    have hn1 : n = 1 := by omega
    have hidx0 : idx = 0 := by omega
    subst hn1 hidx0
    rfl

/-- Helper: when every endpoint fails, the loop burns all its fuel and
reports no result. -/
theorem execGo_all_fail (outcomes : List EndpointResult)
    (hall : ∀ r ∈ outcomes, r = EndpointResult.fail) :
    ∀ fuel idx, (execGo outcomes idx fuel).1 = none ∧
      (execGo outcomes idx fuel).2.1 = fuel := by
  intro fuel
  induction fuel with
  | zero => intro idx; exact ⟨rfl, rfl⟩
  | succ f ih =>
    intro idx
    have hg := getD_fail outcomes hall idx
    simp only [execGo, hg]
    exact ⟨(ih _).1, by rw [(ih _).2]⟩

/-- Helper: if the `m` endpoints from the cursor onward (wrapping) fail
and endpoint `(idx + m) % n` succeeds, the loop returns that outcome
after exactly `m + 1` attempts. -/
theorem execGo_success_after (outcomes : List EndpointResult) (o : OcrOutcome) :
    ∀ (m idx fuel : Nat), idx < outcomes.length → m < fuel →
    (∀ k, k < m →
      outcomes.getD ((idx + k) % outcomes.length) EndpointResult.fail = EndpointResult.fail) →
    outcomes.getD ((idx + m) % outcomes.length) EndpointResult.fail = EndpointResult.success o →
    execGo outcomes idx fuel =
      (some (some o), m + 1, (idx + m) % outcomes.length) := by
  intro m
  induction m with
  | zero =>
    intro idx fuel hidx hfuel _ hsucc
    obtain ⟨f, rfl⟩ : ∃ f, fuel = f + 1 := ⟨fuel - 1, by omega⟩
    rw [Nat.add_zero, Nat.mod_eq_of_lt hidx] at hsucc
    simp only [execGo]
    rw [hsucc]
    simp [Nat.mod_eq_of_lt hidx]
  | succ m ih =>
    intro idx fuel hidx hfuel hfail hsucc
    obtain ⟨f, rfl⟩ : ∃ f, fuel = f + 1 := ⟨fuel - 1, by omega⟩
    have h0 := hfail 0 (Nat.succ_pos m)
    rw [Nat.add_zero, Nat.mod_eq_of_lt hidx] at h0
    have hn : 0 < outcomes.length := by omega
    have hrot : rotate_url outcomes.length idx = (idx + 1) % outcomes.length :=
      rotate_url_eq _ _ hidx
    have hidx2 : (idx + 1) % outcomes.length < outcomes.length := Nat.mod_lt _ hn
    have hshift : ∀ j, ((idx + 1) % outcomes.length + j) % outcomes.length =
        (idx + (j + 1)) % outcomes.length := by
      intro j
      rw [Nat.mod_add_mod]
      congr 1
      omega
    have hfail2 : ∀ k, k < m →
        outcomes.getD (((idx + 1) % outcomes.length + k) % outcomes.length)
          EndpointResult.fail = EndpointResult.fail := by
      intro k hk
      rw [hshift k]
      exact hfail (k + 1) (by omega)
    have hsucc2 : outcomes.getD (((idx + 1) % outcomes.length + m) % outcomes.length)
        EndpointResult.fail = EndpointResult.success o := by
      rw [hshift m]
      exact hsucc
    have hrec := ih ((idx + 1) % outcomes.length) f hidx2 (by omega) hfail2 hsucc2
    simp only [execGo, h0, hrot, hrec]
    rw [hshift m]

/-- C3: endpoint failover.  The request loop tries the current endpoint
first; with the first `N − 1` tried endpoints failing it succeeds on the
Nth after exactly `N` attempts; with all `N` endpoints failing it raises
the aggregate error after exactly `N` attempts. -/
theorem claim_C3_failover (outcomes : List EndpointResult) (startIdx : Nat)
    (o : OcrOutcome) (hstart : startIdx < outcomes.length) :
    (outcomes.getD startIdx EndpointResult.fail = EndpointResult.success o →
      run_ollama_ocr outcomes startIdx = (some (some o), 1, startIdx)) ∧
    ((∀ k, k < outcomes.length - 1 →
        outcomes.getD ((startIdx + k) % outcomes.length) EndpointResult.fail =
          EndpointResult.fail) →
      outcomes.getD ((startIdx + (outcomes.length - 1)) % outcomes.length)
        EndpointResult.fail = EndpointResult.success o →
      run_ollama_ocr outcomes startIdx =
        (some (some o), outcomes.length,
          (startIdx + (outcomes.length - 1)) % outcomes.length)) ∧
    ((∀ r ∈ outcomes, r = EndpointResult.fail) →
      (run_ollama_ocr outcomes startIdx).1 = none ∧
      (run_ollama_ocr outcomes startIdx).2.1 = outcomes.length) := by
  have hn : 0 < outcomes.length := by omega
  refine ⟨?_, ?_, ?_⟩
  · intro hsucc
    have hgo := execGo_success_after outcomes o 0 startIdx outcomes.length hstart hn
      (by omega) (by rwa [Nat.add_zero, Nat.mod_eq_of_lt hstart])
    unfold run_ollama_ocr
    rw [hgo]
    simp [Nat.mod_eq_of_lt hstart]
  · intro hfail hsucc
    have := execGo_success_after outcomes o (outcomes.length - 1) startIdx
      outcomes.length hstart (by omega) hfail hsucc
    unfold run_ollama_ocr
    rw [this]
    have : outcomes.length - 1 + 1 = outcomes.length := by omega
    rw [this]
  · intro hall
    exact execGo_all_fail outcomes hall outcomes.length startIdx

/-- C3 witness: three endpoints, the first two failing, cursor at 0. -/
theorem claim_C3_failover_witness :
    run_ollama_ocr
      [EndpointResult.fail, EndpointResult.fail,
       EndpointResult.success ⟨"t", 1, 0⟩] 0 =
      (some (some ⟨"t", 1, 0⟩), 3, 2) ∧
    (run_ollama_ocr [EndpointResult.fail, EndpointResult.fail] 0).1 = none ∧
    (run_ollama_ocr [EndpointResult.fail, EndpointResult.fail] 0).2.1 = 2 := by
  refine ⟨?_, ?_⟩
  · have := (claim_C3_failover
      [EndpointResult.fail, EndpointResult.fail, EndpointResult.success ⟨"t", 1, 0⟩]
      0 ⟨"t", 1, 0⟩ (by decide)).2.1 (by decide) (by decide)
    simpa using this
  · exact (claim_C3_failover [EndpointResult.fail, EndpointResult.fail] 0 ⟨"t", 1, 0⟩
      (by decide)).2.2 (by decide)

/-- Helper: a page list containing a failure makes the page loop
error out. -/
theorem join_pages_error (pages : List (Option String))
    (hbad : ∃ p ∈ pages, p = none ∨ ∃ s, p = some s ∧ pyStrip s.data = []) :
    ∃ e, join_pages pages = Except.error e := by
  induction pages with
  | nil => obtain ⟨p, hp, _⟩ := hbad; exact absurd hp (List.not_mem_nil p)
  | cons p rest ih =>
    obtain ⟨q, hq, hfailq⟩ := hbad
    cases p with
    | none => exact ⟨_, rfl⟩
    | some t =>
      by_cases hempty : t.data = [] ∨ pyStrip t.data = []
      · refine ⟨"Empty result from OCR model", ?_⟩
        simp [join_pages, hempty]
      · have hqrest : q ∈ rest := by
          rcases List.mem_cons.mp hq with rfl | h
          · rcases hfailq with h | ⟨s, hs, hstrip⟩
            · exact absurd h (by simp)
            · rw [Option.some_inj.mp hs] at hempty
              exact absurd (Or.inr hstrip) hempty
          · exact h
        obtain ⟨e, he⟩ := ih ⟨q, hqrest, hfailq⟩
        refine ⟨e, ?_⟩
        simp [join_pages, hempty, he, Except.map]

/-- Helper: a page list of non-blank successes is collected in order. -/
theorem join_pages_ok (texts : List String)
    (hgood : ∀ t ∈ texts, pyStrip t.data ≠ []) :
    join_pages (texts.map some) = Except.ok texts := by
  induction texts with
  | nil => rfl
  | cons t rest ih =>
    have ht := hgood t (List.mem_cons_self t rest)
    have hdata : ¬ (t.data = [] ∨ pyStrip t.data = []) := by
      rintro (h | h)
      · exact ht (by simp [pyStrip, h])
      · exact ht h
    simp only [List.map_cons, join_pages, hdata, if_neg, not_false_eq_true]
    rw [ih (fun s hs => hgood s (List.mem_cons_of_mem t hs))]
    rfl

/-- C2: document OCR is all-or-nothing.  Any page raising or producing a
blank result fails the whole `ocr_document` computation with an error
carrying no page text; when every page succeeds the new content is the
page texts in order joined with blank-line separators. -/
theorem claim_C2_all_or_nothing :
    (∀ pages : List (Option String),
      (∃ p ∈ pages, p = none ∨ ∃ s, p = some s ∧ pyStrip s.data = []) →
      ∃ e, ocr_document_content pages = Except.error e) ∧
    (∀ texts : List String, texts ≠ [] → (∀ t ∈ texts, pyStrip t.data ≠ []) →
      ocr_document_content (texts.map some) =
        Except.ok (String.intercalate "\n\n" texts)) := by
  constructor
  · intro pages hbad
    unfold ocr_document_content
    by_cases hnil : pages = []
    · refine ⟨"Keine Seiten aus dem Dokument extrahiert", ?_⟩
      simp [hnil]
    · obtain ⟨e, he⟩ := join_pages_error pages hbad
      refine ⟨e, ?_⟩
      simp [hnil, he, Except.map]
  · intro texts hne hgood
    unfold ocr_document_content
    have hmapne : texts.map some ≠ [] := by
      simpa using hne
    rw [if_neg hmapne, join_pages_ok texts hgood]
    rfl

/-- C2 witness: page 2 of 3 failing discards pages 1 and 3; three good
pages are joined with blank lines. -/
theorem claim_C2_all_or_nothing_witness :
    (∃ e, ocr_document_content [some "page one", none, some "page three"] =
      Except.error e) ∧
    ocr_document_content [some "p1", some "p2", some "p3"] =
      Except.ok "p1\n\np2\n\np3" := by
  constructor
  · exact claim_C2_all_or_nothing.1 [some "page one", none, some "page three"]
      ⟨none, by simp, Or.inl rfl⟩
  · have := claim_C2_all_or_nothing.2 ["p1", "p2", "p3"] (by simp) (by decide)
    simpa using this

/-- C5: the loop ratio of every returned response record equals
`1 − cleanedLength/rawLength` with a positive raw length (a raw length
of 0 yields the ratio 0 internally but an empty text, hence no record);
whenever the first attempt ratio exceeds 0.6 the single-page operation
issues exactly one anti-table retry and returns the outcome with the
longer cleaned text; otherwise no retry is issued. -/
theorem claim_C5_loop_ratio_retry :
    (∀ content thinking o, process_response content thinking = some o →
      0 < o.rawLen ∧
      o.loop_ratio = 1 - (o.cleaned.length : ℚ) / (o.rawLen : ℚ)) ∧
    (∀ run o, run PromptKind.std = some o → o.loop_ratio > (3 : ℚ) / 5 →
      (ocr_single_image run).2 = [PromptKind.std, PromptKind.antiTable] ∧
      (∀ r, run PromptKind.antiTable = some r →
        ∃ c, (ocr_single_image run).1 = some c ∧
          (c = o.cleaned ∨ c = r.cleaned) ∧
          c.length = max o.cleaned.length r.cleaned.length)) ∧
    (∀ run o, run PromptKind.std = some o → ¬ o.loop_ratio > (3 : ℚ) / 5 →
      (ocr_single_image run).2 = [PromptKind.std]) := by
  have tail_spec : ∀ (s : String) (o : OcrOutcome), outcome_of s = some o →
      0 < o.rawLen ∧ o.loop_ratio = 1 - (o.cleaned.length : ℚ) / (o.rawLen : ℚ) := by
    intro s o h
    simp only [outcome_of] at h
    by_cases hd : s.data = []
    · simp [hd] at h
    · have hlen : 0 < s.length := List.length_pos.mpr hd
      rw [if_pos hd] at h
      split at h
      · exact absurd h (by simp)
      · obtain rfl := Option.some_inj.mp h
        exact ⟨hlen, by simp [hlen]⟩
  refine ⟨?_, ?_, ?_⟩
  · intro content thinking o h
    simp only [process_response] at h
    exact tail_spec _ o h
  · intro run o h hratio
    constructor
    · cases hr : run PromptKind.antiTable with
      | none => simp [ocr_single_image, h, hratio, hr]
      | some r =>
        by_cases hl : r.cleaned.length > o.cleaned.length <;>
          simp [ocr_single_image, h, hratio, hr, hl]
    · intro r hr
      by_cases hl : r.cleaned.length > o.cleaned.length
      · refine ⟨r.cleaned, ?_, Or.inr rfl, (Nat.max_eq_right (Nat.le_of_lt hl)).symm⟩
        simp [ocr_single_image, h, hratio, hr, hl]
      · refine ⟨o.cleaned, ?_, Or.inl rfl, (Nat.max_eq_left (by omega)).symm⟩
        simp [ocr_single_image, h, hratio, hr, hl]
  · intro run o h hratio
    simp [ocr_single_image, h, hratio]

/-- Helper: a non-empty retry at least as long as the first attempt is
kept. -/
theorem retry_kept_ge (newC rc : String) (h1 : rc.data ≠ [])
    (h2 : newC.length ≤ rc.length) : retry_kept newC (some rc) = rc := by
  by_cases h3 : newC.length < rc.length <;> simp [retry_kept, h1, h2, h3]

/-- Helper: a retry shorter than the first attempt is discarded. -/
theorem retry_kept_lt (newC rc : String) (h : rc.length < newC.length) :
    retry_kept newC (some rc) = newC := by
  have h2 : ¬ newC.length < rc.length := by omega
  have h3 : ¬ newC.length ≤ rc.length := by omega
  by_cases h1 : rc.data = [] <;> simp [retry_kept, h1, h2, h3]

/-- C1: for a batch document with prior length over 100 and new length
below half of it, exactly one full re-OCR retry is issued; the retry is
kept iff it is at least as long as the first attempt; after
re-evaluation, a final length still below half the prior appends a
`retried = true` review item and writes nothing back, and otherwise the
result is applied. -/
theorem claim_C1_quality_gate
    (docId : Nat) (title oldC newC : String) (retry : Option String)
    (hne : newC.data ≠ []) (hold : 100 < oldC.length)
    (hlow : 2 * newC.length < oldC.length) :
    (quality_gate docId title oldC newC retry).retries = 1 ∧
    (∀ rc, retry = some rc → rc.data ≠ [] → newC.length ≤ rc.length →
      (quality_gate docId title oldC newC retry).finalContent = rc) ∧
    (∀ rc, retry = some rc → rc.length < newC.length →
      (quality_gate docId title oldC newC retry).finalContent = newC) ∧
    (retry = none → (quality_gate docId title oldC newC retry).finalContent = newC) ∧
    (2 * (quality_gate docId title oldC newC retry).finalContent.length < oldC.length →
      (quality_gate docId title oldC newC retry).applied = false ∧
      ∃ item, (quality_gate docId title oldC newC retry).review = some item ∧
        item.retried = true ∧
        item.new_content = (quality_gate docId title oldC newC retry).finalContent) ∧
    (oldC.length ≤ 2 * (quality_gate docId title oldC newC retry).finalContent.length →
      (quality_gate docId title oldC newC retry).applied = true ∧
      (quality_gate docId title oldC newC retry).review = none) := by
  have hfinal : (quality_gate docId title oldC newC retry).finalContent =
      retry_kept newC retry := by
    simp only [quality_gate]
    rw [if_neg hne, if_pos ⟨hold, hlow⟩]
    split <;> rfl
  refine ⟨?_, ?_, ?_, ?_, ?_, ?_⟩
  · simp only [quality_gate]
    rw [if_neg hne, if_pos ⟨hold, hlow⟩]
    split <;> rfl
  · intro rc hrc h1 h2
    rw [hfinal, hrc]
    exact retry_kept_ge newC rc h1 h2
  · intro rc hrc hlt
    rw [hfinal, hrc]
    exact retry_kept_lt newC rc hlt
  · intro hnone
    rw [hfinal, hnone]
    rfl
  · intro hlt
    rw [hfinal] at hlt
    simp only [quality_gate]
    rw [if_neg hne, if_pos ⟨hold, hlow⟩, if_pos ⟨hold, hlt⟩]
    exact ⟨rfl, _, rfl, rfl, rfl⟩
  · intro hge
    rw [hfinal] at hge
    simp only [quality_gate]
    rw [if_neg hne, if_pos ⟨hold, hlow⟩,
      if_neg (by rintro ⟨_, hc⟩; omega)]
    exact ⟨rfl, rfl⟩

/-- C1 witness: the spec scenarios with oldLength 1000 and newLength
400: a 600-character retry is applied with no review item; a
450-character retry (kept, as 450 ≥ 400) still fails the threshold and
yields a review item with retried = true. -/
theorem claim_C1_quality_gate_witness :
    (quality_gate 1 "d" (repStr 1000) (repStr 400) (some (repStr 600))).retries = 1 ∧
    (quality_gate 1 "d" (repStr 1000) (repStr 400) (some (repStr 600))).finalContent =
      repStr 600 ∧
    (quality_gate 1 "d" (repStr 1000) (repStr 400) (some (repStr 600))).applied = true ∧
    (quality_gate 1 "d" (repStr 1000) (repStr 400) (some (repStr 600))).review = none ∧
    (quality_gate 1 "d" (repStr 1000) (repStr 400) (some (repStr 450))).applied = false ∧
    ((quality_gate 1 "d" (repStr 1000) (repStr 400) (some (repStr 450))).review.map
      (fun i => i.retried)) = some true := by
  have hlen : ∀ n, (repStr n).length = n := by
    intro n
    show (List.replicate n 'a').length = n
    simp
  have hdata : ∀ n, 0 < n → (repStr n).data ≠ [] := by
    intro n hn h
    have := congrArg List.length h
    show False
    rw [show (repStr n).data = List.replicate n 'a' from rfl] at this
    simp at this
    omega
  have h600 := claim_C1_quality_gate 1 "d" (repStr 1000) (repStr 400)
    (some (repStr 600)) (hdata 400 (by omega)) (by rw [hlen]; omega)
    (by rw [hlen, hlen]; omega)
  have h450 := claim_C1_quality_gate 1 "d" (repStr 1000) (repStr 400)
    (some (repStr 450)) (hdata 400 (by omega)) (by rw [hlen]; omega)
    (by rw [hlen, hlen]; omega)
  have hf600 := h600.2.1 (repStr 600) rfl (hdata 600 (by omega))
    (by rw [hlen, hlen]; omega)
  have hf450 := h450.2.1 (repStr 450) rfl (hdata 450 (by omega))
    (by rw [hlen, hlen]; omega)
  have hap600 := h600.2.2.2.2.2 (by rw [hf600, hlen, hlen]; omega)
  have hrev450 := h450.2.2.2.2.1 (by rw [hf450, hlen, hlen]; omega)
  obtain ⟨item, hitem, hretried, _⟩ := hrev450.2
  exact ⟨h600.1, hf600, hap600.1, hap600.2, hrev450.1, by rw [hitem]; simp [hretried]⟩

/-- Helper: a cons-shaped drop gives the element at the index and the
next drop. -/
theorem drop_cons_getElem {α : Type} (all : List α) (i : Nat) (line : α)
    (rest : List α) (h : all.drop i = line :: rest) :
    all[i]? = some line ∧ all.drop (i + 1) = rest := by
  constructor
  · have h0 : (all.drop i)[0]? = some line := by rw [h]; simp
    rw [List.getElem?_drop] at h0
    simpa using h0
  · have h1 : all.drop (i + 1) = (all.drop i).drop 1 := by
      rw [List.drop_drop]
    rw [h1, h]
    rfl

/-- Helper: with no qualifying line at or after the scan position, the
commentary scan returns nothing. -/
theorem findCut_none_aux (all : List (List Char)) :
    ∀ (sfx : List (List Char)) (i : Nat), sfx = all.drop i →
      (∀ j, i ≤ j → ¬ cutsAt all j) → findCut all sfx i = none := by
  intro sfx
  induction sfx with
  | nil => intro i _ _; rfl
  | cons line rest ih =>
    intro i hdrop hno
    obtain ⟨hget, hrest⟩ := drop_cons_getElem all i line rest hdrop.symm
    have hrec := ih (i + 1) hrest.symm (fun j hj => hno j (by omega))
    by_cases h1 : pyLower (pyStrip line) = []
    · simpa [findCut, h1] using hrec
    · by_cases h2 : markerMatch (pyLower (pyStrip line)) = true
      · have h3 : ¬ 80 < (pyStrip (List.intercalate ['\n'] (all.take i))).length := by
          intro h3
          exact hno i (le_refl i) ⟨line, hget, h1, h2, h3⟩
        simpa [findCut, h1, h2, h3] using hrec
      · simpa [findCut, h1, h2] using hrec

/-- Helper: the commentary scan returns the stripped prefix of the first
qualifying line. -/
theorem findCut_some_aux (all : List (List Char)) :
    ∀ (sfx : List (List Char)) (i j : Nat), sfx = all.drop i → i ≤ j →
      cutsAt all j → (∀ k, i ≤ k → k < j → ¬ cutsAt all k) →
      findCut all sfx i =
        some (pyStrip (List.intercalate ['\n'] (all.take j))) := by
  intro sfx
  induction sfx with
  | nil =>
    intro i j hdrop hij hcut _
    exfalso
    obtain ⟨line, hget, _⟩ := hcut
    have hlen : all.length ≤ i := List.drop_eq_nil_iff.mp hdrop.symm
    rw [List.getElem?_eq_none (by omega)] at hget
    exact Option.noConfusion hget
  | cons line rest ih =>
    intro i j hdrop hij hcut hmin
    obtain ⟨hget, hrest⟩ := drop_cons_getElem all i line rest hdrop.symm
    by_cases hij' : i = j
    · subst hij'
      obtain ⟨line2, hget2, hne2, hmk2, hb2⟩ := hcut
      rw [hget] at hget2
      obtain rfl : line2 = line := (Option.some_inj.mp hget2).symm
      simp [findCut, hne2, hmk2, hb2]
    · have hlt : i < j := by omega
      have hnot : ¬ cutsAt all i := hmin i (le_refl i) hlt
      have hrec := ih (i + 1) j hrest.symm (by omega) hcut
        (fun k hk1 hk2 => hmin k (by omega) hk2)
      by_cases h1 : pyLower (pyStrip line) = []
      · simpa [findCut, h1] using hrec
      · by_cases h2 : markerMatch (pyLower (pyStrip line)) = true
        · have h3 : ¬ 80 < (pyStrip (List.intercalate ['\n'] (all.take i))).length := by
            intro h3
            exact hnot ⟨line, hget, h1, h2, h3⟩
          simpa [findCut, h1, h2, h3] using hrec
        · simpa [findCut, h1, h2] using hrec

/-- C7 (amended): texts shorter than 100 characters are returned
unmodified; otherwise the lines are scanned top-down and the text is
truncated to the (stripped) material before the FIRST commentary-marker
line whose preceding material exceeds 80 characters, while marker lines
with at most 80 preceding characters are skipped and the scan
continues; with no such line the text is unmodified.  (The original
claim, which stops the scan at the first marker line regardless of the
80-character test, is refuted by the counterexample.) -/
theorem claim_C7_commentary :
    (∀ text : String, text.length < 100 → strip_ocr_commentary text = text) ∧
    (∀ text : String, ¬ text.length < 100 →
      ((∀ j, ¬ cutsAt (text.data.splitOn '\n') j) →
        strip_ocr_commentary text = text) ∧
      (∀ j, cutsAt (text.data.splitOn '\n') j →
        (∀ k, k < j → ¬ cutsAt (text.data.splitOn '\n') k) →
        strip_ocr_commentary text =
          ⟨pyStrip (List.intercalate ['\n']
            ((text.data.splitOn '\n').take j))⟩)) := by
  constructor
  · intro text hshort
    unfold strip_ocr_commentary
    rw [if_pos (Or.inr hshort)]
  · intro text hlong
    have hcond : ¬ (text.data = [] ∨ text.length < 100) := by
      rintro (h | h)
      · exact hlong (by simp [String.length, h])
      · exact hlong h
    constructor
    · intro hno
      have hfc := findCut_none_aux (text.data.splitOn '\n') (text.data.splitOn '\n') 0
        (List.drop_zero _).symm (fun j _ => hno j)
      simp only [strip_ocr_commentary]
      rw [if_neg hcond, hfc]
    · intro j hcut hmin
      have hfc := findCut_some_aux (text.data.splitOn '\n') (text.data.splitOn '\n') 0 j
        (List.drop_zero _).symm (Nat.zero_le j) hcut (fun k _ hk => hmin k hk)
      simp only [strip_ocr_commentary]
      rw [if_neg hcond, hfc]

/-- C5 witness: a first attempt with loop ratio 0.7 issues exactly the
standard attempt and one anti-table retry, and the longer retry text is
returned. -/
theorem claim_C5_loop_ratio_retry_witness :
    (ocr_single_image w5run).2 = [PromptKind.std, PromptKind.antiTable] ∧
    (ocr_single_image w5run).1 = some "abcd" := by
  have h := claim_C5_loop_ratio_retry.2.1 w5run ⟨"ab", 10, 7 / 10⟩ rfl (by norm_num)
  refine ⟨h.1, ?_⟩
  obtain ⟨c, hc, hor, hlenc⟩ := h.2 ⟨"abcd", 4, 0⟩ rfl
  rcases hor with rfl | rfl
  · exact absurd hlenc (by decide)
  · exact hc

/-- C7 counterexample: a 104-character text whose first line "got it"
is a commentary-marker line with no preceding material (0 ≤ 80
characters), so by the claim the text must be left unmodified; the code
keeps scanning and truncates at the later marker line "let me continue",
modifying the text. -/
theorem claim_C7_counterexample :
    markerMatch (pyLower (pyStrip "got it".data)) = true ∧
    (pyStrip (List.intercalate ['\n']
      ((("got it\nAAAAAAAAAAAAAAAAAAAAAAAAAAAAAAAAAAAAAAAAAAAAAAAAAAAAAAAAAAAAAAAAAAAAAAAAAAAAAAAAA\nlet me continue" : String).data.splitOn '\n').take 0))).length ≤ 80 ∧
    strip_ocr_commentary "got it\nAAAAAAAAAAAAAAAAAAAAAAAAAAAAAAAAAAAAAAAAAAAAAAAAAAAAAAAAAAAAAAAAAAAAAAAAAAAAAAAAA\nlet me continue" =
      "got it\nAAAAAAAAAAAAAAAAAAAAAAAAAAAAAAAAAAAAAAAAAAAAAAAAAAAAAAAAAAAAAAAAAAAAAAAAAAAAAAAAA" ∧
    strip_ocr_commentary "got it\nAAAAAAAAAAAAAAAAAAAAAAAAAAAAAAAAAAAAAAAAAAAAAAAAAAAAAAAAAAAAAAAAAAAAAAAAAAAAAAAAA\nlet me continue" ≠
      "got it\nAAAAAAAAAAAAAAAAAAAAAAAAAAAAAAAAAAAAAAAAAAAAAAAAAAAAAAAAAAAAAAAAAAAAAAAAAAAAAAAAA\nlet me continue" := by
  refine ⟨by decide, by decide, by decide, by decide⟩

/-- C7 witness: a short text is untouched. -/
theorem claim_C7_commentary_witness :
    strip_ocr_commentary "short output" = "short output" :=
  claim_C7_commentary.1 "short output" (by decide)

/-- Helper: `findEcho` is `echoScan` with the final state dropped. -/
theorem findEcho_eq_echoScan :
    ∀ (lines : List (List Char)) (i rs : Nat) (ls : List Char) (rc : Nat),
      findEcho lines i rs ls rc =
        match echoScan lines i ⟨rs, ls, rc⟩ with
        | .ok r => some r
        | .error _ => none := by
  intro lines
  induction lines with
  | nil => intro i rs ls rc; rfl
  | cons line rest ih =>
    intro i rs ls rc
    simp only [findEcho, echoScan]
    by_cases h1 : pyStrip line ≠ [] ∧ pyStrip line = ls
    · rw [if_pos h1, if_pos h1]
      by_cases h2 : rc + 1 ≥ 20
      · rw [if_pos h2, if_pos h2]
      · rw [if_neg h2, if_neg h2]
        exact ih (i + 1) rs ls (rc + 1)
    · rw [if_neg h1, if_neg h1]
      exact ih (i + 1) i (pyStrip line) _

/-- Helper: the phase-1 scan over an appended list runs the first part
and continues from its final state. -/
theorem echoScan_append :
    ∀ (pre rest : List (List Char)) (i : Nat) (st : Nat × List Char × Nat),
      echoScan (pre ++ rest) i st =
        match echoScan pre i st with
        | .ok r => .ok r
        | .error st2 => echoScan rest (i + pre.length) st2 := by
  intro pre
  induction pre with
  | nil => intro rest i st; simp [echoScan]
  | cons line ptail ih =>
    intro rest i st
    simp only [List.cons_append, echoScan]
    by_cases h1 : pyStrip line ≠ [] ∧ pyStrip line = st.2.1
    · rw [if_pos h1, if_pos h1]
      by_cases h2 : st.2.2 + 1 ≥ 20
      · rw [if_pos h2, if_pos h2]
      · rw [if_neg h2, if_neg h2]
        simp only [List.append_eq]
        rw [ih]
        have : i + 1 + ptail.length = i + (ptail.length + 1) := by omega
        rw [this]
        rfl
    · rw [if_neg h1, if_neg h1]
      simp only [List.append_eq]
      rw [ih]
      have : i + 1 + ptail.length = i + (ptail.length + 1) := by omega
      rw [this]
      rfl

/-- Helper: the `last_stripped` component of the final phase-1 state is
the stripped last line (or the inherited value on an empty list). -/
theorem echoScan_error_ls :
    ∀ (pre : List (List Char)) (i rs : Nat) (ls : List Char) (rc : Nat)
      (st2 : Nat × List Char × Nat),
      echoScan pre i ⟨rs, ls, rc⟩ = .error st2 →
      st2.2.1 = (pre.map pyStrip).getLastD ls := by
  intro pre
  induction pre with
  | nil =>
    intro i rs ls rc st2 h
    simp only [echoScan, Except.error.injEq] at h
    rw [← h]
    rfl
  | cons line ptail ih =>
    intro i rs ls rc st2 h
    simp only [echoScan] at h
    by_cases h1 : pyStrip line ≠ [] ∧ pyStrip line = ls
    · rw [if_pos h1] at h
      by_cases h2 : rc + 1 ≥ 20
      · rw [if_pos h2] at h
        exact absurd h (by simp)
      · rw [if_neg h2] at h
        have := ih (i + 1) rs ls (rc + 1) st2 h
        rw [this, List.map_cons, List.getLastD_cons, h1.2]
    · rw [if_neg h1] at h
      have := ih (i + 1) i (pyStrip line) _ st2 h
      rw [this, List.map_cons, List.getLastD_cons]

/-- Helper: inside a run of lines stripping to `t`, the counter reaches
20 and phase 1 reports the stored run start. -/
theorem echoScan_run :
    ∀ (runTail : List (List Char)) (post : List (List Char)) (t : List Char)
      (i rs c : Nat), (∀ l ∈ runTail, pyStrip l = t) → t ≠ [] →
      c < 20 → 20 ≤ c + runTail.length →
      echoScan (runTail ++ post) i ⟨rs, t, c⟩ = .ok rs := by
  intro runTail
  induction runTail with
  | nil =>
    intro post t i rs c _ _ hc hlen
    simp at hlen
    omega
  | cons r0 rtail ih =>
    intro post t i rs c hall ht hc hlen
    have h0 : pyStrip r0 = t := hall r0 (List.mem_cons_self r0 rtail)
    simp only [List.cons_append, echoScan]
    rw [if_pos ⟨by rw [h0]; exact ht, h0⟩]
    by_cases h2 : c + 1 ≥ 20
    · rw [if_pos h2]
    · rw [if_neg h2]
      exact ih post t (i + 1) rs (c + 1)
        (fun l hl => hall l (List.mem_cons_of_mem r0 hl)) ht (by omega)
        (by simp at hlen ⊢; omega)

/-- Helper: a run too short to trigger the echo check leaves phase 1
reporting no echo. -/
theorem echoScan_run_short :
    ∀ (runTail : List (List Char)) (t : List Char) (c : Nat),
      (∀ l ∈ runTail, pyStrip l = t) → t ≠ [] → c + runTail.length < 20 →
      ∀ (i rs : Nat), ∃ st2, echoScan runTail i ⟨rs, t, c⟩ = .error st2 := by
  intro runTail
  induction runTail with
  | nil => intro t c _ _ _ i rs; exact ⟨_, rfl⟩
  | cons r0 rtail ih =>
    intro t c hall ht hlen i rs
    have h0 : pyStrip r0 = t := hall r0 (List.mem_cons_self r0 rtail)
    simp only [echoScan]
    rw [if_pos ⟨by rw [h0]; exact ht, h0⟩, if_neg (by simp at hlen; omega)]
    exact ih t (c + 1) (fun l hl => hall l (List.mem_cons_of_mem r0 hl)) ht
      (by simp at hlen ⊢; omega) (i + 1) rs

/-- Helper: on adjacent-repeat-free input, phase 1 finds no echo. -/
theorem findEcho_none_of_ok :
    ∀ (lines : List (List Char)) (prev : List Char),
      okChainB prev lines = true →
      ∀ (i rs rc : Nat), findEcho lines i rs prev rc = none := by
  intro lines
  induction lines with
  | nil => intro prev _ i rs rc; rfl
  | cons l ls ih =>
    intro prev hok i rs rc
    simp only [okChainB, Bool.and_eq_true, Bool.or_eq_true, decide_eq_true_eq] at hok
    have hcond : ¬ (pyStrip l ≠ [] ∧ pyStrip l = prev) := by
      rcases hok.1 with h | h
      · rintro ⟨h1, _⟩; exact h1 h
      · rintro ⟨_, h2⟩; exact h h2
    simp only [findEcho]
    rw [if_neg hcond]
    exact ih (pyStrip l) hok.2 (i + 1) i _

/-- Helper: on adjacent-repeat-free input, phase 2 is the identity. -/
theorem collapse_id_of_ok :
    ∀ (lines : List (List Char)) (prev : List Char),
      okChainB prev lines = true →
      ∀ (rc : Nat), collapse lines rc prev = lines := by
  intro lines
  induction lines with
  | nil => intro prev _ rc; rfl
  | cons l ls ih =>
    intro prev hok rc
    simp only [okChainB, Bool.and_eq_true, Bool.or_eq_true, decide_eq_true_eq] at hok
    have hcond : ¬ (pyStrip l = prev ∧ pyStrip l ≠ []) := by
      rcases hok.1 with h | h
      · rintro ⟨_, h2⟩; exact h2 h
      · rintro ⟨h1, _⟩; exact h h1
    simp only [collapse]
    rw [if_neg hcond, ih (pyStrip l) hok.2 0]

/-- Helper: inside a run of a repeated non-blank line, phase 2 keeps as
many further copies as the counter allows. -/
theorem collapse_replicate (s : List Char) (hs : pyStrip s ≠ []) :
    ∀ (m c : Nat), collapse (List.replicate m s) c (pyStrip s) =
      List.replicate (min m (5 - c)) s := by
  intro m
  induction m with
  | zero => intro c; simp [collapse]
  | succ m ih =>
    intro c
    rw [List.replicate_succ]
    simp only [collapse]
    rw [if_pos ⟨by trivial, hs⟩]
    by_cases hc : c + 1 ≥ 6
    · rw [if_pos hc, ih (c + 1)]
      have hmin : min m (5 - (c + 1)) = min (m + 1) (5 - c) := by omega
      rw [hmin]
    · rw [if_neg hc, ih (c + 1)]
      have hmin : min (m + 1) (5 - c) = min m (5 - (c + 1)) + 1 := by omega
      rw [hmin, List.replicate_succ]

/-- Helper: a pure run of `k` copies of a non-blank line collapses to
its first `min k 6` copies. -/
theorem collapse_replicate_start (s : List Char) (hs : pyStrip s ≠ []) (k : Nat) :
    collapse (List.replicate k s) 0 [] = List.replicate (min k 6) s := by
  cases k with
  | zero => simp [collapse]
  | succ m =>
    rw [List.replicate_succ]
    simp only [collapse]
    rw [if_neg (by rintro ⟨h1, _⟩; exact hs h1)]
    rw [collapse_replicate s hs m 0]
    have hmin : min (m + 1) 6 = min m 5 + 1 := by omega
    rw [hmin, List.replicate_succ]

/-- Helper: after phase 2, no line with non-empty stripped content opens
a run of more than 6 consecutive copies anywhere in the output;
moreover the leading run matching the carried `last` value is bounded by
the remaining counter budget. -/
theorem collapse_headRun :
    ∀ (lines : List (List Char)) (rc : Nat) (last : List Char),
      headRun last (collapse lines rc last) ≤ 5 - min rc 5 ∧
      (∀ t sfx, sfx ∈ (collapse lines rc last).tails → headRun t sfx ≤ 6) := by
  intro lines
  induction lines with
  | nil =>
    intro rc last
    constructor
    · simp [collapse, headRun]
    · intro t sfx hsfx
      simp [collapse] at hsfx
      subst hsfx
      simp [headRun]
  | cons l ls ih =>
    intro rc last
    by_cases h1 : pyStrip l = last ∧ pyStrip l ≠ []
    · have hlast : last ≠ [] := h1.1 ▸ h1.2
      by_cases h2 : rc + 1 ≥ 6
      · have hcol : collapse (l :: ls) rc last = collapse ls (rc + 1) last := by
          simp only [collapse]
          rw [if_pos h1, if_pos h2, h1.1]
        rw [hcol]
        refine ⟨?_, (ih (rc + 1) last).2⟩
        have := (ih (rc + 1) last).1
        omega
      · have hcol : collapse (l :: ls) rc last = l :: collapse ls (rc + 1) last := by
          simp only [collapse]
          rw [if_pos h1, if_neg h2, h1.1]
        rw [hcol]
        have ihs := ih (rc + 1) last
        have hstep : headRun last (l :: collapse ls (rc + 1) last) =
            headRun last (collapse ls (rc + 1) last) + 1 := by
          simp [headRun, h1.1, hlast]
        constructor
        · rw [hstep]
          have := ihs.1
          omega
        · intro t sfx hsfx
          rw [List.tails_cons, List.mem_cons] at hsfx
          rcases hsfx with rfl | hsfx
          · by_cases ht : pyStrip l = t ∧ t ≠ []
            · have : headRun t (l :: collapse ls (rc + 1) last) =
                  headRun t (collapse ls (rc + 1) last) + 1 := by
                simp [headRun, ht.1, ht.2]
              rw [this, ← ht.1, h1.1]
              have := ihs.1
              omega
            · simp [headRun, ht]
          · exact ihs.2 t sfx hsfx
    · have hcol : collapse (l :: ls) rc last = l :: collapse ls 0 (pyStrip l) := by
        simp only [collapse]
        rw [if_neg h1]
      rw [hcol]
      have ihs := ih 0 (pyStrip l)
      constructor
      · have hls : ¬ (pyStrip l = last ∧ last ≠ []) := by
          rintro ⟨ha, hb⟩
          exact h1 ⟨ha, ha ▸ hb⟩
        have : headRun last (l :: collapse ls 0 (pyStrip l)) = 0 := by
          simp only [headRun]
          rw [if_neg hls]
        rw [this]
        omega
      · intro t sfx hsfx
        rw [List.tails_cons, List.mem_cons] at hsfx
        rcases hsfx with rfl | hsfx
        · by_cases ht : pyStrip l = t ∧ t ≠ []
          · have : headRun t (l :: collapse ls 0 (pyStrip l)) =
                headRun t (collapse ls 0 (pyStrip l)) + 1 := by
              simp [headRun, ht.1, ht.2]
            rw [this, ← ht.1]
            have := ihs.1
            omega
          · simp [headRun, ht]
        · exact ihs.2 t sfx hsfx

/-- Helper: the cleanup with no echo detected. -/
theorem clean_repetitions_of_findEcho_none (text : String)
    (h5 : ¬ (text.data.splitOn '\n').length < 5)
    (hecho : findEcho (text.data.splitOn '\n') 0 0 [] 0 = none) :
    clean_repetitions text =
      if (text.data.splitOn '\n').length < 10 then
        ⟨pyStrip (List.intercalate ['\n'] (text.data.splitOn '\n'))⟩
      else ⟨List.intercalate ['\n'] (collapse (text.data.splitOn '\n') 0 [])⟩ := by
  simp only [clean_repetitions]
  rw [if_neg h5, hecho]

/-- Helper: the cleanup with an echo detected at `rs`. -/
theorem clean_repetitions_of_findEcho_some (text : String) (rs : Nat)
    (h5 : ¬ (text.data.splitOn '\n').length < 5)
    (hecho : findEcho (text.data.splitOn '\n') 0 0 [] 0 = some rs) :
    clean_repetitions text =
      if ((text.data.splitOn '\n').take rs).length < 10 then
        ⟨pyStrip (List.intercalate ['\n'] ((text.data.splitOn '\n').take rs))⟩
      else ⟨List.intercalate ['\n'] (collapse ((text.data.splitOn '\n').take rs) 0 [])⟩ := by
  simp only [clean_repetitions]
  rw [if_neg h5, hecho]

/-- C4 (amended): two-phase repetition cleanup.
Conjunct 1: with no adjacent repeated non-blank stripped line, the text
is returned unchanged when it has fewer than 5 or at least 10 lines,
and whitespace-trimmed when it has 5 to 9 lines (the trim is the
amendment; the counterexample shows it).
Conjunct 2: a run of at least 20 lines stripping to the same non-blank
content, entered after an echo-free prefix whose last stripped line
differs, truncates the text at the run start: everything from the run
onward is removed and only the prefix (phase-2-processed, or
join-trimmed when short) remains.
Conjunct 3: a text of `k ∈ [10, 19]` identical copies of a non-blank
line keeps exactly 6 of them.
Conjunct 4: phase-2 output never contains more than 6 consecutive lines
with the same non-blank stripped content.
Conjunct 5: 6 identical lines lose nothing. -/
theorem claim_C4_repetition_cleanup :
    (∀ text : String, okChainB [] (text.data.splitOn '\n') = true →
      clean_repetitions text =
        if (text.data.splitOn '\n').length < 5 then text
        else if (text.data.splitOn '\n').length < 10 then ⟨pyStrip text.data⟩
        else text) ∧
    (∀ (text : String) (pre runL post : List (List Char)) (t : List Char)
      (st2 : Nat × List Char × Nat),
      text.data.splitOn '\n' = pre ++ runL ++ post →
      echoScan pre 0 ⟨0, [], 0⟩ = Except.error st2 →
      (pre.map pyStrip).getLastD [] ≠ t →
      (∀ l ∈ runL, pyStrip l = t) → t ≠ [] → 20 ≤ runL.length →
      clean_repetitions text =
        if pre.length < 10 then ⟨pyStrip (List.intercalate ['\n'] pre)⟩
        else ⟨List.intercalate ['\n'] (collapse pre 0 [])⟩) ∧
    (∀ (text : String) (s : List Char) (k : Nat), pyStrip s ≠ [] →
      10 ≤ k → k ≤ 19 → text.data.splitOn '\n' = List.replicate k s →
      clean_repetitions text = ⟨List.intercalate ['\n'] (List.replicate 6 s)⟩) ∧
    (∀ (lines : List (List Char)) (rc : Nat) (last t : List Char)
      (sfx : List (List Char)), sfx ∈ (collapse lines rc last).tails →
      headRun t sfx ≤ 6) ∧
    clean_repetitions "x\nx\nx\nx\nx\nx" = "x\nx\nx\nx\nx\nx" := by
  refine ⟨?_, ?_, ?_, ?_, by decide⟩
  · intro text hok
    by_cases h5 : (text.data.splitOn '\n').length < 5
    · rw [if_pos h5]
      simp only [clean_repetitions]
      rw [if_pos h5]
    · rw [if_neg h5]
      have hecho := findEcho_none_of_ok (text.data.splitOn '\n') [] hok 0 0 0
      rw [clean_repetitions_of_findEcho_none text h5 hecho,
        collapse_id_of_ok _ [] hok 0, List.intercalate_splitOn]
  · intro text pre runL post t st2 hsplit hscan hlast hrun ht hlen
    obtain ⟨rs2, ls2, rc2⟩ := st2
    obtain ⟨r0, rt, rfl⟩ : ∃ r0 rt, runL = r0 :: rt := by
      cases runL with
      | nil => simp at hlen
      | cons a b => exact ⟨a, b, rfl⟩
    have hls2 : ls2 = (pre.map pyStrip).getLastD [] :=
      echoScan_error_ls pre 0 0 [] 0 ⟨rs2, ls2, rc2⟩ hscan
    have h5 : ¬ (text.data.splitOn '\n').length < 5 := by
      rw [hsplit]
      simp only [List.length_append, List.length_cons]
      simp only [List.length_cons] at hlen
      omega
    have hstep1 : echoScan (text.data.splitOn '\n') 0 ⟨0, [], 0⟩ =
        echoScan ((r0 :: rt) ++ post) (0 + pre.length) ⟨rs2, ls2, rc2⟩ := by
      rw [hsplit, List.append_assoc, echoScan_append, hscan]
    have h0 : pyStrip r0 = t := hrun r0 (List.mem_cons_self r0 rt)
    have hstep2 : echoScan ((r0 :: rt) ++ post) (0 + pre.length) ⟨rs2, ls2, rc2⟩ =
        echoScan (rt ++ post) (0 + pre.length + 1) ⟨0 + pre.length, t, 1⟩ := by
      simp only [List.cons_append, echoScan]
      rw [if_neg (by
        rintro ⟨_, hx⟩
        rw [h0] at hx
        exact hlast (hls2 ▸ hx).symm)]
      rw [h0, if_pos ht]
      simp only [List.append_eq]
    have hstep3 : echoScan (rt ++ post) (0 + pre.length + 1)
        ⟨0 + pre.length, t, 1⟩ = Except.ok (0 + pre.length) :=
      echoScan_run rt post t (0 + pre.length + 1) (0 + pre.length) 1
        (fun l hl => hrun l (List.mem_cons_of_mem r0 hl)) ht (by omega)
        (by simp only [List.length_cons] at hlen; omega)
    have hecho : findEcho (text.data.splitOn '\n') 0 0 [] 0 = some pre.length := by
      rw [findEcho_eq_echoScan, hstep1, hstep2, hstep3]
      simp
    rw [clean_repetitions_of_findEcho_some text pre.length h5 hecho]
    have htake : (text.data.splitOn '\n').take pre.length = pre := by
      rw [hsplit, List.append_assoc, List.take_left]
    rw [htake]
  · intro text s k hs h10 h19 hsplit
    obtain ⟨m, rfl⟩ : ∃ m, k = m + 1 := ⟨k - 1, by omega⟩
    have h5 : ¬ (text.data.splitOn '\n').length < 5 := by
      rw [hsplit]
      simp only [List.length_replicate]
      omega
    have hecho : findEcho (text.data.splitOn '\n') 0 0 [] 0 = none := by
      rw [findEcho_eq_echoScan, hsplit, List.replicate_succ]
      have hstep : echoScan (s :: List.replicate m s) 0 ⟨0, [], 0⟩ =
          echoScan (List.replicate m s) 1 ⟨0, pyStrip s, 1⟩ := by
        simp only [echoScan]
        rw [if_neg (by rintro ⟨_, hx⟩; exact hs hx), if_pos hs]
      rw [hstep]
      obtain ⟨st2, hst2⟩ := echoScan_run_short (List.replicate m s) (pyStrip s) 1
        (fun l hl => by rw [List.eq_of_mem_replicate hl]) hs
        (by simp only [List.length_replicate]; omega) 1 0
      rw [hst2]
    rw [clean_repetitions_of_findEcho_none text h5 hecho]
    have h10' : ¬ (text.data.splitOn '\n').length < 10 := by
      rw [hsplit]
      simp only [List.length_replicate]
      omega
    rw [if_neg h10', hsplit, collapse_replicate_start s hs (m + 1)]
    have hmin : min (m + 1) 6 = 6 := by omega
    rw [hmin]
  · exact fun lines rc last t sfx h => (collapse_headRun lines rc last).2 t sfx h

/-- C4 witness: 25 identical lines followed by real content lose
everything from the run onward (the run starts the text, so everything
goes); 10 identical lines keep exactly 6. -/
theorem claim_C4_repetition_cleanup_witness :
    clean_repetitions "spam\nspam\nspam\nspam\nspam\nspam\nspam\nspam\nspam\nspam\nspam\nspam\nspam\nspam\nspam\nspam\nspam\nspam\nspam\nspam\nspam\nspam\nspam\nspam\nspam\nreal content here" = "" ∧
    clean_repetitions "x\nx\nx\nx\nx\nx\nx\nx\nx\nx" = "x\nx\nx\nx\nx\nx" := by
  constructor
  · have h := claim_C4_repetition_cleanup.2.1
      "spam\nspam\nspam\nspam\nspam\nspam\nspam\nspam\nspam\nspam\nspam\nspam\nspam\nspam\nspam\nspam\nspam\nspam\nspam\nspam\nspam\nspam\nspam\nspam\nspam\nreal content here"
      [] (List.replicate 25 "spam".data) ["real content here".data]
      "spam".data ⟨0, [], 0⟩ (by decide) rfl (by decide) (by decide) (by decide)
      (by decide)
    rw [h]
    decide
  · have h := claim_C4_repetition_cleanup.2.2.1
      "x\nx\nx\nx\nx\nx\nx\nx\nx\nx" "x".data 10 (by decide) (by decide) (by decide)
      (by decide)
    rw [h]
    decide

/-- C4 counterexample: "a\nb\nc\nd\n" has no repeated line at all, yet
the cleanup returns "a\nb\nc\nd": the 5-to-9-line path rejoins the lines
with a final `.strip()`, dropping the trailing newline, so the claimed
unconditional no-op is false. -/
theorem claim_C4_counterexample :
    okChainB [] (("a\nb\nc\nd\n" : String).data.splitOn '\n') = true ∧
    clean_repetitions "a\nb\nc\nd\n" = "a\nb\nc\nd" ∧
    clean_repetitions "a\nb\nc\nd\n" ≠ "a\nb\nc\nd\n" :=
  ⟨by decide, by decide, by decide⟩

end OcrService
